import Mathlib

/-
  Shallow embedding of the bn4t/mailer core: the in-memory email store
  (storage/store.go) and the IMAP mailbox view (imap/mailbox.go, whose
  source is reproduced in the repository README).

  Modelling conventions:
  * Go `map[int]*models.Email` is an association list `List (Nat × Email)`
    whose keys are kept unique by insert/remove; map iteration order is
    unspecified in Go, so `GetAll` is modelled as a *relation* `GetAllResult`
    accepting any permutation of the stored records.
  * Go `int` is modelled as `Nat`; the 64-bit overflow of `nextID++` is not
    modelled (identifiers stay far below 2^63 in any run the spec considers).
  * `time.Time` is modelled as a `Nat` timestamp; the RFC1123Z calendar
    rendering is abstracted to the decimal rendering of that timestamp
    (injective, and no claim inspects the rendered text).
  * Go code that can panic (indexing `email.To[0]`) is modelled with
    `Option`: `none` is the panic/failure outcome.
  * Go `len` on a string counts bytes; `String.length` counts characters.
    No claim distinguishes the two.
-/

namespace Mailer

/-- models.Email (models/email.go). -/
structure Email where
  id : Nat
  «from» : String
  «to» : List String
  subject : String
  body : String
  htmlBody : String
  date : Nat
  rawHeaders : String
  receivedAt : Nat
deriving DecidableEq, Repr

/-! ### The Go map `map[int]*models.Email`, as an association list -/

/-- Insertion `m[k] = v` of a Go map: replace the binding if the key is
present, otherwise append a new binding. -/
def mapInsert (k : Nat) (v : Email) : List (Nat × Email) → List (Nat × Email)
  | [] => [(k, v)]
  | (k', v') :: rest =>
      if k = k' then (k, v) :: rest else (k', v') :: mapInsert k v rest

/-- Lookup `m[k]` of a Go map. -/
def mapLookup (k : Nat) : List (Nat × Email) → Option Email
  | [] => none
  | (k', v) :: rest => if k = k' then some v else mapLookup k rest

/-- Deletion `delete(m, k)` of a Go map. -/
def mapRemove (k : Nat) (l : List (Nat × Email)) : List (Nat × Email) :=
  l.filter (fun kv => kv.1 != k)

/-! ### storage/store.go -/

/-- Store (storage/store.go): the `emails` map and the `nextID` counter.
The `sync.RWMutex` only serialises access and has no sequential content. -/
structure Store where
  emails : List (Nat × Email)
  nextID : Nat
deriving DecidableEq, Repr

/-- NewStore. -/
def Store.new : Store := { emails := [], nextID := 1 }

/-- Store.Save: sets `email.ID = nextID`, stores it under that key,
increments the counter and returns the assigned identifier.  Total: the Go
function has no error path. -/
def Store.save (s : Store) (e : Email) : Store × Nat :=
  let e' := { e with id := s.nextID }
  ({ emails := mapInsert s.nextID e' s.emails, nextID := s.nextID + 1 }, s.nextID)

/-- Store.GetAll returns the map's values in Go map iteration order, which
is unspecified; `GetAllResult s l` holds exactly when `l` is a possible
return value of `s.GetAll()`. -/
def GetAllResult (s : Store) (l : List Email) : Prop :=
  l.Perm (s.emails.map Prod.snd)

/-- Store.GetByID: point lookup; the Go `(email, ok)` pair is an `Option`. -/
def Store.getByID (s : Store) (id : Nat) : Option Email :=
  mapLookup id s.emails

/-- Store.Delete: removes the key if present and reports whether it was. -/
def Store.delete (s : Store) (id : Nat) : Store × Bool :=
  match mapLookup id s.emails with
  | some _ => ({ s with emails := mapRemove id s.emails }, true)
  | none => (s, false)

/-- Store.DeleteAll: fresh map, counter reset to 1. -/
def Store.deleteAll (_s : Store) : Store :=
  { emails := [], nextID := 1 }

/-- Store.Count. -/
def Store.count (s : Store) : Nat :=
  s.emails.length

/-- Iterated Save, returning the final store and the identifiers in
the order they were returned. -/
def Store.saveAll : Store → List Email → Store × List Nat
  | s, [] => (s, [])
  | s, e :: es =>
      let p := s.save e
      let q := p.1.saveAll es
      (q.1, p.2 :: q.2)

/-! ### Basic map lemmas -/

theorem mapLookup_mapInsert_self (k : Nat) (v : Email) (l : List (Nat × Email)) :
    mapLookup k (mapInsert k v l) = some v := by
  induction l with
  | nil => simp [mapInsert, mapLookup]
  | cons kv rest ih =>
      obtain ⟨k', v'⟩ := kv
      by_cases h : k = k'
      · simp [mapInsert, h, mapLookup]
      · simp [mapInsert, h, mapLookup, ih]

theorem mem_mapInsert (k : Nat) (v : Email) :
    ∀ (l : List (Nat × Email)) (kv : Nat × Email),
      kv ∈ mapInsert k v l → kv = (k, v) ∨ kv ∈ l := by
  intro l
  induction l with
  | nil =>
      intro kv h
      simpa [mapInsert] using h
  | cons kv' rest ih =>
      intro kv h
      obtain ⟨k', v'⟩ := kv'
      simp only [mapInsert] at h
      by_cases hk : k = k'
      · rw [if_pos hk] at h
        rcases List.mem_cons.mp h with h | h
        · exact Or.inl h
        · exact Or.inr (List.mem_cons_of_mem _ h)
      · rw [if_neg hk] at h
        rcases List.mem_cons.mp h with h | h
        · exact Or.inr (by simp [h])
        · rcases ih kv h with h' | h'
          · exact Or.inl h'
          · exact Or.inr (List.mem_cons_of_mem _ h')

theorem mapLookup_eq_none_filter (k : Nat) :
    ∀ l : List (Nat × Email),
      mapLookup k l = none → l.filter (fun kv => kv.1 != k) = l := by
  intro l
  induction l with
  | nil => intro _; rfl
  | cons kv rest ih =>
      intro h
      obtain ⟨k', v'⟩ := kv
      by_cases hk : k = k'
      · simp [mapLookup, hk] at h
      · simp only [mapLookup, if_neg hk] at h
        have hne : (k' != k) = true := by
          simpa [bne_iff_ne] using Ne.symm hk
        simp [List.filter_cons, hne, ih h]

/-- The state reached by `Store.Delete` always has its map filtered at the
deleted key (a no-op when the key is absent), and the counter untouched. -/
theorem delete_emails (s : Store) (id : Nat) :
    ((s.delete id).1).emails = s.emails.filter (fun kv => kv.1 != id) ∧
      ((s.delete id).1).nextID = s.nextID := by
  unfold Store.delete
  cases h : mapLookup id s.emails with
  | some v => simp [mapRemove]
  | none => simp [mapLookup_eq_none_filter id s.emails h]

/-! ### IMAP wire types used by imap/mailbox.go (from emersion/go-imap) -/

/-- The flag constants `imap.SeenFlag` and `imap.DeletedFlag`. -/
def SeenFlag : String := "\\Seen"

def DeletedFlag : String := "\\Deleted"

/-- imap.Address: `parseAddress` only ever fills MailboxName. -/
structure Address where
  mailboxName : String
  hostName : String
deriving DecidableEq, Repr

/-- imap.Envelope, restricted to the fields buildEnvelope fills. -/
structure Envelope where
  date : Nat
  subject : String
  «from» : List Address
  «to» : List Address
  sender : List Address
deriving DecidableEq, Repr

/-- One leaf of an imap.BodyStructure as this code builds them. -/
structure BodyPart where
  mimeType : String
  mimeSubType : String
  params : List (String × String)
  size : Nat
deriving DecidableEq, Repr

/-- imap.BodyStructure, restricted to the shape buildBodyStructure builds
(at most one level of parts). -/
structure BodyStructure where
  mimeType : String
  mimeSubType : String
  params : List (String × String)
  size : Nat
  parts : List BodyPart
deriving DecidableEq, Repr

/-- The specifier of an imap.BodySectionName; buildBody only distinguishes
`header` from everything else. -/
inductive BodySpecifier where
  | entire
  | header
  | mime
  | text
deriving DecidableEq, Repr

/-- imap.FetchItem: the cases of ListMessages' switch; `bodySection`
stands for the `default:` branch where the item parses as a body section. -/
inductive FetchItem where
  | envelope
  | body
  | bodyStructure
  | flags
  | internalDate
  | rfc822Size
  | uid
  | bodySection (s : BodySpecifier)
deriving DecidableEq, Repr

/-- imap.StatusItem. -/
inductive StatusItem where
  | messages
  | uidNext
  | uidValidity
  | recent
  | unseen
deriving DecidableEq, Repr

/-- imap.FlagsOp: the three flag-update operations. -/
inductive FlagsOp where
  | add
  | remove
  | set
deriving DecidableEq, Repr

/-- imap.Message, restricted to the fields ListMessages fills.  The `body`
map collects the results of BODY[...] fetches (entries of `msg.Body`). -/
structure Message where
  seqNum : Nat
  envelope : Option Envelope := none
  bodyStructure : Option BodyStructure := none
  flags : Option (List String) := none
  internalDate : Option Nat := none
  size : Option Nat := none
  uid : Option Nat := none
  body : List (BodySpecifier × String) := []
deriving DecidableEq, Repr

/-- imap.NewMessage: a message with the sequence number set and no fields
fetched yet. -/
def newMessage (seq : Nat) : Message := { seqNum := seq }

/-! ### imap/mailbox.go -/

/-- parseAddress. -/
def parseAddress (addr : String) : Address :=
  { mailboxName := addr, hostName := "" }

/-- parseAddresses. -/
def parseAddresses (addrs : List String) : List Address :=
  addrs.map parseAddress

namespace Mailbox

/-- Mailbox.buildEnvelope. -/
def buildEnvelope (e : Email) : Envelope :=
  { date := e.date
    subject := e.subject
    «from» := [parseAddress e.«from»]
    «to» := parseAddresses e.«to»
    sender := [parseAddress e.«from»] }

/-- Mailbox.buildBodyStructure. -/
def buildBodyStructure (e : Email) : BodyStructure :=
  if e.htmlBody ≠ "" then
    { mimeType := "multipart"
      mimeSubType := "alternative"
      params := []
      size := 0
      parts :=
        [{ mimeType := "text", mimeSubType := "plain"
           params := [("charset", "utf-8")], size := e.body.length },
         { mimeType := "text", mimeSubType := "html"
           params := [("charset", "utf-8")], size := e.htmlBody.length }] }
  else
    { mimeType := "text"
      mimeSubType := "plain"
      params := [("charset", "utf-8")]
      size := e.body.length
      parts := [] }

/-- The decimal abstraction of `email.Date.Format(time.RFC1123Z)`. -/
def formatDate (t : Nat) : String := toString t

/-- Mailbox.buildBody.  The Go code unconditionally reads `email.To[0]`,
which panics when the recipient list is empty: that outcome is `none`.
The header block is synthesized from From/To[0]/Subject/Date; the
full-message path appends the HTML body if present, else the plain body. -/
def buildBody (e : Email) (section_ : BodySpecifier) : Option String :=
  match e.«to» with
  | [] => none
  | t0 :: _ =>
      let hdr := "From: " ++ e.«from» ++ "\r\n" ++
        "To: " ++ t0 ++ "\r\n" ++
        "Subject: " ++ e.subject ++ "\r\n" ++
        "Date: " ++ formatDate e.date ++ "\r\n" ++ "\r\n"
      match section_ with
      | .header => some hdr
      | _ => some (hdr ++ (if e.htmlBody ≠ "" then e.htmlBody else e.body))

/-- One arm of the `switch item` in ListMessages: fills the corresponding
message field.  `none` is the panic of a body fetch on an empty
recipient list. -/
def applyItem (dflags : List Nat) (e : Email) (msg : Message) :
    FetchItem → Option Message
  | .envelope => some { msg with envelope := some (buildEnvelope e) }
  | .body => some { msg with bodyStructure := some (buildBodyStructure e) }
  | .bodyStructure => some { msg with bodyStructure := some (buildBodyStructure e) }
  | .flags =>
      let fl := if dflags.contains e.id then [DeletedFlag] else []
      some { msg with flags := some fl }
  | .internalDate => some { msg with internalDate := some e.receivedAt }
  | .rfc822Size => some { msg with size := some e.body.length }
  | .uid => some { msg with uid := some e.id }
  | .bodySection s =>
      (buildBody e s).map (fun c => { msg with body := msg.body ++ [(s, c)] })

/-- Construction of one imap.Message in ListMessages' loop body:
`imap.NewMessage(seqNum, items)` followed by the `switch` over `items`. -/
def fetchMessage (dflags : List Nat) (items : List FetchItem) (seq : Nat)
    (e : Email) : Option Message :=
  items.foldlM (applyItem dflags e) (newMessage seq)

/-- The loop of Mailbox.ListMessages: `i` is the 0-based loop index, so the
sequence number of the head is `i + 1`.  Emails whose sequence number is not
in the requested set are skipped; a panic anywhere aborts the listing. -/
def listMessagesAux (seqset : Nat → Bool) (items : List FetchItem)
    (dflags : List Nat) : Nat → List Email → Option (List Message)
  | _, [] => some []
  | i, e :: rest =>
      if seqset (i + 1) then
        match fetchMessage dflags items (i + 1) e with
        | none => none
        | some m => (listMessagesAux seqset items dflags (i + 1) rest).map (m :: ·)
      else
        listMessagesAux seqset items dflags (i + 1) rest

/-- Mailbox.ListMessages over the slice returned by Store.GetAll.  The
`uid` parameter is declared but never read by the Go code; `seqset` is the
`Contains` predicate of the requested imap.SeqSet. -/
def listMessages (uid : Bool) (seqset : Nat → Bool) (items : List FetchItem)
    (dflags : List Nat) (emails : List Email) : Option (List Message) :=
  listMessagesAux seqset items dflags 0 emails

/-- Modelled from the code of Mailbox.Status: only the requested items are
filled; Flags/PermanentFlags/UnseenSeqNum are set unconditionally. -/
structure MailboxStatus where
  messages : Nat := 0
  uidNext : Nat := 0
  uidValidity : Nat := 0
  recent : Nat := 0
  unseen : Nat := 0
  unseenSeqNum : Nat := 0
  flags : List String := []
  permanentFlags : List String := []
deriving DecidableEq, Repr

/-- Mailbox.Status over the slice returned by Store.GetAll (only its length
is ever used). -/
def status (emails : List Email) (items : List StatusItem) : MailboxStatus :=
  items.foldl
    (fun st it =>
      match it with
      | .messages => { st with messages := emails.length }
      | .uidNext => { st with uidNext := emails.length + 1 }
      | .uidValidity => { st with uidValidity := 1 }
      | .recent => { st with recent := 0 }
      | .unseen => { st with unseen := 0 })
    { flags := [SeenFlag, DeletedFlag]
      permanentFlags := [SeenFlag, DeletedFlag]
      unseenSeqNum := 0 }

/-- The SearchCriteria structure; Mailbox.SearchMessages never reads it, so
only a placeholder field is modelled. -/
structure SearchCriteria where
  text : String := ""
deriving DecidableEq, Repr

/-- The loop of Mailbox.SearchMessages: append the uid or the sequence
number of every email, per the caller's `uid` choice. -/
def searchMessagesAux (uid : Bool) : Nat → List Email → List Nat
  | _, [] => []
  | i, e :: rest =>
      (if uid then e.id else i + 1) :: searchMessagesAux uid (i + 1) rest

/-- Mailbox.SearchMessages over the slice returned by Store.GetAll.  Total:
the Go function always returns a nil error. -/
def searchMessages (uid : Bool) (_criteria : SearchCriteria)
    (emails : List Email) : List Nat :=
  searchMessagesAux uid 0 emails

/-- `m.deletedFlags[id] = true` / `delete(m.deletedFlags, id)` on the
session's deletion-flag set (modelled as a duplicate-free membership list). -/
def applyFlagOp (op : FlagsOp) (id : Nat) (d : List Nat) : List Nat :=
  match op with
  | .add => if d.contains id then d else d ++ [id]
  | .set => if d.contains id then d else d ++ [id]
  | .remove => d.filter (fun x => x != id)

/-- The loop of Mailbox.UpdateMessagesFlags: for every email whose sequence
number is in the set, add/set inserts its identifier into the deletion-flag
set and remove erases it. -/
def updateFlagsAux (seqset : Nat → Bool) (op : FlagsOp) :
    Nat → List Email → List Nat → List Nat
  | _, [], d => d
  | i, e :: rest, d =>
      updateFlagsAux seqset op (i + 1) rest
        (if seqset (i + 1) then applyFlagOp op e.id d else d)

/-- Mailbox.UpdateMessagesFlags over the slice returned by Store.GetAll.
The `uid` parameter is declared but never read by the Go code.  Returns the
new deletion-flag set; the Go function always returns a nil error. -/
def updateMessagesFlags (uid : Bool) (seqset : Nat → Bool) (op : FlagsOp)
    (flags : List String) (emails : List Email) (d : List Nat) : List Nat :=
  if flags.contains DeletedFlag then updateFlagsAux seqset op 0 emails d else d

/-- Mailbox.Expunge: Store.Delete every flagged identifier (the result
booleans are discarded, so absent identifiers are not an error), then clear
the flag set.  Total: the Go function always returns a nil error. -/
def expunge (dflags : List Nat) (s : Store) : List Nat × Store :=
  ([], dflags.foldl (fun st id => (st.delete id).1) s)

end Mailbox

/-! ### Reachable Store states: traces of Save / Delete / DeleteAll -/

/-- One mutating Store operation. -/
inductive StoreOp where
  | save (e : Email)
  | delete (id : Nat)
  | deleteAll
deriving DecidableEq, Repr

/-- A Store together with the identifiers Save has returned: all of them
(`issuedEver`), and those returned since the most recent DeleteAll
(`issuedSinceClear`). -/
structure TraceResult where
  store : Store
  issuedEver : List Nat
  issuedSinceClear : List Nat
deriving DecidableEq, Repr

/-- Effect of one operation on the store and the issued-identifier logs. -/
def TraceResult.step (r : TraceResult) : StoreOp → TraceResult
  | .save e =>
      let p := r.store.save e
      { store := p.1
        issuedEver := r.issuedEver ++ [p.2]
        issuedSinceClear := r.issuedSinceClear ++ [p.2] }
  | .delete id => { r with store := (r.store.delete id).1 }
  | .deleteAll =>
      { store := r.store.deleteAll
        issuedEver := r.issuedEver
        issuedSinceClear := [] }

/-- Run a trace of operations from a fresh Store. -/
def execTrace (ops : List StoreOp) : TraceResult :=
  ops.foldl TraceResult.step
    { store := Store.new, issuedEver := [], issuedSinceClear := [] }

/-! ### Concrete fixtures -/

/-- A concrete email with one recipient. -/
def eA : Email :=
  { id := 1, «from» := "a@x.com", «to» := ["r@x.com"], subject := "A"
    body := "hello", htmlBody := "", date := 10, rawHeaders := "", receivedAt := 11 }

/-- A second concrete email. -/
def eB : Email :=
  { eA with id := 2, subject := "B", body := "world" }

/-- A third concrete email. -/
def eC : Email :=
  { eA with id := 0, subject := "C" }

/-- A concrete email with an empty recipient list. -/
def eNoRcpt : Email :=
  { eA with «to» := [] }

/-- The store holding eA under key 1 and eB under key 2, reached by two
Saves from a fresh store. -/
def s12 : Store := ((Store.new.save eA).1.save eB).1

/-- s12 after deleting identifier 1: only eB (key 2) remains, nextID is 3. -/
def s2 : Store := (s12.delete 1).1

/-! ### Theorems -/

theorem saveAll_ids (es : List Email) :
    ∀ s : Store, (s.saveAll es).2 = List.range' s.nextID es.length := by
  induction es with
  | nil => intro s; rfl
  | cons e rest ih =>
      intro s
      simp [Store.saveAll, Store.save, ih, List.range'_succ]

/-- C8: DeleteAll empties the store, resets the counter to 1, and the next
Save returns identifier 1 again. -/
theorem deleteAll_resets (s : Store) (e : Email) :
    (s.deleteAll).count = 0 ∧ (s.deleteAll).nextID = 1 ∧
      ((s.deleteAll).save e).2 = 1 :=
  ⟨rfl, rfl, rfl⟩

/-- C5: from a fresh Store, a sequence of Saves returns exactly the
consecutive identifiers 1, 2, …, n (strictly increasing, no gaps, never
failing), and after any Save the returned identifier looks up the saved
record, whose identifier field equals it. -/
theorem save_ids_consecutive (es : List Email) (s : Store) (e : Email) :
    (Store.new.saveAll es).2 = List.range' 1 es.length ∧
      (s.save e).1.getByID (s.save e).2 = some { e with id := (s.save e).2 } := by
  constructor
  · exact saveAll_ids es Store.new
  · simpa [Store.save, Store.getByID] using
      mapLookup_mapInsert_self s.nextID { e with id := s.nextID } s.emails

theorem searchMessagesAux_uid (emails : List Email) :
    ∀ i, Mailbox.searchMessagesAux true i emails = emails.map Email.id := by
  induction emails with
  | nil => intro i; rfl
  | cons e rest ih => intro i; simp [Mailbox.searchMessagesAux, ih]

theorem searchMessagesAux_seq (emails : List Email) :
    ∀ i, Mailbox.searchMessagesAux false i emails
        = List.range' (i + 1) emails.length := by
  induction emails with
  | nil => intro i; rfl
  | cons e rest ih => intro i; simp [Mailbox.searchMessagesAux, ih, List.range'_succ]

/-- C7: SearchMessages ignores the criteria entirely and returns one
address per stored message — the identifiers when uid addressing is
requested (a permutation of the Store's keys), the sequence numbers
1, …, n otherwise — and never fails. -/
theorem search_returns_everything (uid : Bool) (c c' : Mailbox.SearchCriteria)
    (emails : List Email) (s : Store) :
    Mailbox.searchMessages uid c emails = Mailbox.searchMessages uid c' emails ∧
      Mailbox.searchMessages true c emails = emails.map Email.id ∧
      Mailbox.searchMessages false c emails = List.range' 1 emails.length ∧
      (GetAllResult s emails → (∀ kv ∈ s.emails, kv.2.id = kv.1) →
        (Mailbox.searchMessages true c emails).Perm (s.emails.map Prod.fst)) := by
  refine ⟨rfl, searchMessagesAux_uid emails 0, searchMessagesAux_seq emails 0, ?_⟩
  intro hperm hkeys
  have h1 : (Mailbox.searchMessages true c emails).Perm
      ((s.emails.map Prod.snd).map Email.id) := by
    unfold Mailbox.searchMessages
    rw [searchMessagesAux_uid emails 0]
    exact hperm.map Email.id
  have h2 : (s.emails.map Prod.snd).map Email.id = s.emails.map Prod.fst := by
    rw [List.map_map]
    exact List.map_congr_left fun kv hkv => hkeys kv hkv
  rw [h2] at h1
  exact h1

/-- Witness for C7 at a concrete store: uid-mode search over the iteration
order [eB, eA] of s12 returns a permutation of s12's keys. -/
theorem search_returns_everything_witness :
    (Mailbox.searchMessages true {} [eB, eA]).Perm (s12.emails.map Prod.fst) :=
  (search_returns_everything true {} {} [eB, eA] s12).2.2.2
    (by unfold GetAllResult; decide) (by decide)

theorem expunge_foldl (dflags : List Nat) :
    ∀ s : Store,
      (dflags.foldl (fun st id => (st.delete id).1) s).emails
          = s.emails.filter (fun kv => !(dflags.contains kv.1)) ∧
        (dflags.foldl (fun st id => (st.delete id).1) s).nextID = s.nextID := by
  induction dflags with
  | nil =>
      intro s
      simp
  | cons d ds ih =>
      intro s
      have hstep : (d :: ds).foldl (fun st id => (st.delete id).1) s
          = ds.foldl (fun st id => (st.delete id).1) ((s.delete d).1) := rfl
      rw [hstep]
      obtain ⟨hem, hnext⟩ := ih ((s.delete d).1)
      obtain ⟨hdem, hdnext⟩ := delete_emails s d
      constructor
      · rw [hem, hdem, List.filter_filter]
        apply List.filter_congr
        intro kv _
        by_cases hd : kv.1 = d <;> by_cases hds : kv.1 ∈ ds <;>
          simp [hd, hds, bne_iff_ne]
      · rw [hnext, hdnext]

/-- C4: Expunge removes from the Store exactly the identifiers in the
deletion-flag set (absent identifiers are not an error), leaves the
counter alone, leaves the flag set empty, is a no-op on an empty flag set,
and never fails. -/
theorem expunge_removes_flagged (dflags : List Nat) (s : Store) :
    (Mailbox.expunge dflags s).1 = [] ∧
      (Mailbox.expunge dflags s).2.emails
          = s.emails.filter (fun kv => !(dflags.contains kv.1)) ∧
      (Mailbox.expunge dflags s).2.nextID = s.nextID ∧
      (dflags = [] → Mailbox.expunge dflags s = ([], s)) := by
  obtain ⟨hem, hnext⟩ := expunge_foldl dflags s
  refine ⟨rfl, hem, hnext, ?_⟩
  intro h
  subst h
  rfl

/-- Witness for C4 at concrete inputs: expunging {1} from s12 leaves only
key 2, and an empty flag set is a no-op. -/
theorem expunge_removes_flagged_witness :
    (Mailbox.expunge [1] s12).2.emails
        = s12.emails.filter (fun kv => !(([1] : List Nat).contains kv.1)) ∧
      Mailbox.expunge [] s12 = ([], s12) :=
  ⟨(expunge_removes_flagged [1] s12).2.1,
    (expunge_removes_flagged [] s12).2.2.2 rfl⟩

/-- The per-state part of the Store invariant: keys match record
identifiers, and the counter exceeds every identifier issued since the most
recent DeleteAll. -/
def StoreInv (r : TraceResult) : Prop :=
  (∀ kv ∈ r.store.emails, kv.2.id = kv.1) ∧
    ∀ id ∈ r.issuedSinceClear, id < r.store.nextID

theorem step_preserves_inv (r : TraceResult) (op : StoreOp)
    (h : StoreInv r) : StoreInv (r.step op) := by
  obtain ⟨hkeys, hids⟩ := h
  cases op with
  | save e =>
      constructor
      · intro kv hkv
        simp only [TraceResult.step, Store.save] at hkv
        rcases mem_mapInsert _ _ _ kv hkv with h' | h'
        · rw [h']
        · exact hkeys kv h'
      · intro id hid
        simp only [TraceResult.step, Store.save] at hid ⊢
        rcases List.mem_append.mp hid with h' | h'
        · exact Nat.lt_succ_of_lt (hids id h')
        · have : id = r.store.nextID := by simpa using h'
          rw [this]
          exact Nat.lt_succ_self _
  | delete i =>
      obtain ⟨hdem, hdnext⟩ := delete_emails r.store i
      constructor
      · intro kv hkv
        simp only [TraceResult.step] at hkv
        rw [hdem] at hkv
        exact hkeys kv (List.mem_of_mem_filter hkv)
      · intro id hid
        simp only [TraceResult.step] at hid ⊢
        rw [hdnext]
        exact hids id hid
  | deleteAll =>
      constructor
      · intro kv hkv
        simp [TraceResult.step, Store.deleteAll] at hkv
      · intro id hid
        simp [TraceResult.step] at hid

theorem foldl_preserves_inv (ops : List StoreOp) :
    ∀ r : TraceResult, StoreInv r → StoreInv (ops.foldl TraceResult.step r) := by
  induction ops with
  | nil => intro r h; exact h
  | cons op rest ih =>
      intro r h
      exact ih (r.step op) (step_preserves_inv r op h)

/-- C3 (amended): in every Store state reachable by Saves, Deletes and
DeleteAlls, every key equals its record's identifier field, and the
next-identifier counter is strictly greater than every identifier issued
by Save since the most recent DeleteAll (identifiers issued before a
DeleteAll may be reused, because DeleteAll resets the counter to 1). -/
theorem store_inv_reachable (ops : List StoreOp) :
    (∀ kv ∈ (execTrace ops).store.emails, kv.2.id = kv.1) ∧
      ∀ id ∈ (execTrace ops).issuedSinceClear, id < (execTrace ops).store.nextID :=
  foldl_preserves_inv ops _ ⟨fun kv hkv => by simp [Store.new] at hkv,
    fun id hid => by simp at hid⟩

/-- Witness for C3 at a concrete trace: one Save issues identifier 1, whose
record is keyed by 1, and the counter (2) exceeds it. -/
theorem store_inv_reachable_witness :
    ({ eC with id := 1 } : Email).id = 1 ∧
      (1 : Nat) < (execTrace [StoreOp.save eC]).store.nextID :=
  ⟨(store_inv_reachable [StoreOp.save eC]).1 (1, { eC with id := 1 }) (by decide),
    (store_inv_reachable [StoreOp.save eC]).2 1 (by decide)⟩

/-- C3 counterexample: after Save then DeleteAll the counter has been reset
to 1, which is not strictly greater than the already-issued identifier 1 —
so the counter does not exceed every identifier *ever* issued. -/
theorem store_counter_reused_after_clear :
    ¬ ((∀ kv ∈ (execTrace [StoreOp.save eC, StoreOp.deleteAll]).store.emails,
          kv.2.id = kv.1) ∧
        ∀ id ∈ (execTrace [StoreOp.save eC, StoreOp.deleteAll]).issuedEver,
          id < (execTrace [StoreOp.save eC, StoreOp.deleteAll]).store.nextID) := by
  decide

theorem mem_applyFlagOp_insert (op : FlagsOp)
    (hop : op = FlagsOp.add ∨ op = FlagsOp.set) (id x : Nat) (d : List Nat) :
    x ∈ Mailbox.applyFlagOp op id d ↔ x ∈ d ∨ x = id := by
  have hbody : Mailbox.applyFlagOp op id d
      = if d.contains id then d else d ++ [id] := by
    rcases hop with h | h <;> rw [h] <;> rfl
  rw [hbody]
  by_cases hmem : id ∈ d
  · rw [if_pos (by simpa using hmem)]
    constructor
    · exact Or.inl
    · rintro (h | h)
      · exact h
      · rw [h]; exact hmem
  · rw [if_neg (by simpa using hmem)]
    simp

theorem mem_applyFlagOp_remove (id x : Nat) (d : List Nat) :
    x ∈ Mailbox.applyFlagOp FlagsOp.remove id d ↔ x ∈ d ∧ x ≠ id := by
  simp [Mailbox.applyFlagOp, List.mem_filter, bne_iff_ne]

theorem mem_updateFlagsAux_insert (ss : Nat → Bool) (op : FlagsOp)
    (hop : op = FlagsOp.add ∨ op = FlagsOp.set) :
    ∀ (l : List Email) (i : Nat) (d : List Nat) (x : Nat),
      x ∈ Mailbox.updateFlagsAux ss op i l d ↔
        x ∈ d ∨ ∃ j, ∃ h : j < l.length,
          ss (i + j + 1) = true ∧ (l.get ⟨j, h⟩).id = x := by
  intro l
  induction l with
  | nil =>
      intro i d x
      simp [Mailbox.updateFlagsAux]
  | cons e rest ih =>
      intro i d x
      rw [show Mailbox.updateFlagsAux ss op i (e :: rest) d
            = Mailbox.updateFlagsAux ss op (i + 1) rest
                (if ss (i + 1) then Mailbox.applyFlagOp op e.id d else d) from rfl]
      rw [ih (i + 1) _ x]
      by_cases hss : ss (i + 1) = true
      · rw [if_pos hss, mem_applyFlagOp_insert op hop e.id x d]
        constructor
        · rintro ((hx | hx) | ⟨j, hj, hs, hg⟩)
          · exact Or.inl hx
          · refine Or.inr ⟨0, Nat.succ_pos _, ?_, ?_⟩
            · simpa using hss
            · simpa using hx.symm
          · refine Or.inr ⟨j + 1, Nat.succ_lt_succ hj, ?_, ?_⟩
            · have harith : i + (j + 1) + 1 = i + 1 + j + 1 := by omega
              rw [harith]; exact hs
            · simpa using hg
        · rintro (hx | ⟨j, hj, hs, hg⟩)
          · exact Or.inl (Or.inl hx)
          · cases j with
            | zero =>
                refine Or.inl (Or.inr ?_)
                simpa using hg.symm
            | succ j =>
                refine Or.inr ⟨j, Nat.lt_of_succ_lt_succ hj, ?_, ?_⟩
                · have harith : i + 1 + j + 1 = i + (j + 1) + 1 := by omega
                  rw [harith]; exact hs
                · simpa using hg
      · rw [if_neg hss]
        constructor
        · rintro (hx | ⟨j, hj, hs, hg⟩)
          · exact Or.inl hx
          · refine Or.inr ⟨j + 1, Nat.succ_lt_succ hj, ?_, ?_⟩
            · have harith : i + (j + 1) + 1 = i + 1 + j + 1 := by omega
              rw [harith]; exact hs
            · simpa using hg
        · rintro (hx | ⟨j, hj, hs, hg⟩)
          · exact Or.inl hx
          · cases j with
            | zero =>
                exact absurd (by simpa using hs) hss
            | succ j =>
                refine Or.inr ⟨j, Nat.lt_of_succ_lt_succ hj, ?_, ?_⟩
                · have harith : i + 1 + j + 1 = i + (j + 1) + 1 := by omega
                  rw [harith]; exact hs
                · simpa using hg

theorem mem_updateFlagsAux_remove (ss : Nat → Bool) :
    ∀ (l : List Email) (i : Nat) (d : List Nat) (x : Nat),
      x ∈ Mailbox.updateFlagsAux ss FlagsOp.remove i l d ↔
        x ∈ d ∧ ∀ j, ∀ h : j < l.length,
          ss (i + j + 1) = true → (l.get ⟨j, h⟩).id ≠ x := by
  intro l
  induction l with
  | nil =>
      intro i d x
      simp [Mailbox.updateFlagsAux]
  | cons e rest ih =>
      intro i d x
      rw [show Mailbox.updateFlagsAux ss FlagsOp.remove i (e :: rest) d
            = Mailbox.updateFlagsAux ss FlagsOp.remove (i + 1) rest
                (if ss (i + 1) then Mailbox.applyFlagOp FlagsOp.remove e.id d else d)
          from rfl]
      rw [ih (i + 1) _ x]
      by_cases hss : ss (i + 1) = true
      · rw [if_pos hss, mem_applyFlagOp_remove e.id x d]
        constructor
        · rintro ⟨⟨hx, hne⟩, hall⟩
          refine ⟨hx, ?_⟩
          intro j hj hs
          cases j with
          | zero => simpa using fun hg => hne hg.symm
          | succ j =>
              have harith : i + (j + 1) + 1 = i + 1 + j + 1 := by omega
              rw [harith] at hs
              simpa using hall j (Nat.lt_of_succ_lt_succ hj) hs
        · rintro ⟨hx, hall⟩
          have hne : (e :: rest).get ⟨0, Nat.succ_pos _⟩ = e := rfl
          refine ⟨⟨hx, ?_⟩, ?_⟩
          · intro hxid
            exact hall 0 (Nat.succ_pos _) (by simpa using hss) (by simpa using hxid.symm)
          · intro j hj hs
            have harith : i + 1 + j + 1 = i + (j + 1) + 1 := by omega
            rw [harith] at hs
            simpa using hall (j + 1) (Nat.succ_lt_succ hj) hs
      · rw [if_neg hss]
        constructor
        · rintro ⟨hx, hall⟩
          refine ⟨hx, ?_⟩
          intro j hj hs
          cases j with
          | zero => exact absurd (by simpa using hs) hss
          | succ j =>
              have harith : i + (j + 1) + 1 = i + 1 + j + 1 := by omega
              rw [harith] at hs
              simpa using hall j (Nat.lt_of_succ_lt_succ hj) hs
        · rintro ⟨hx, hall⟩
          refine ⟨hx, ?_⟩
          intro j hj hs
          have harith : i + 1 + j + 1 = i + (j + 1) + 1 := by omega
          rw [harith] at hs
          simpa using hall (j + 1) (Nat.succ_lt_succ hj) hs

/-- C6: SetFlags is a successful no-op when the deletion flag is not
requested; when it is, add/replace inserts into the session's deletion-flag
set exactly the identifiers of the records whose 1-based sequence number is
in the requested set, and remove erases exactly those; no other flag has
any effect. -/
theorem updateFlags_only_deleted (uid : Bool) (ss : Nat → Bool) (op : FlagsOp)
    (flags : List String) (emails : List Email) (d : List Nat) :
    (DeletedFlag ∉ flags →
        Mailbox.updateMessagesFlags uid ss op flags emails d = d) ∧
      (DeletedFlag ∈ flags → ∀ x,
        ((op = FlagsOp.add ∨ op = FlagsOp.set) →
          (x ∈ Mailbox.updateMessagesFlags uid ss op flags emails d ↔
            x ∈ d ∨ ∃ j, ∃ h : j < emails.length,
              ss (j + 1) = true ∧ (emails.get ⟨j, h⟩).id = x)) ∧
        (op = FlagsOp.remove →
          (x ∈ Mailbox.updateMessagesFlags uid ss op flags emails d ↔
            x ∈ d ∧ ∀ j, ∀ h : j < emails.length,
              ss (j + 1) = true → (emails.get ⟨j, h⟩).id ≠ x))) := by
  constructor
  · intro hnot
    unfold Mailbox.updateMessagesFlags
    rw [if_neg (by simpa using hnot)]
  · intro hmem x
    constructor
    · intro hop
      unfold Mailbox.updateMessagesFlags
      rw [if_pos (by simpa using hmem),
        mem_updateFlagsAux_insert ss op hop emails 0 d x]
      simp only [Nat.zero_add]
    · intro hop
      subst hop
      unfold Mailbox.updateMessagesFlags
      rw [if_pos (by simpa using hmem),
        mem_updateFlagsAux_remove ss emails 0 d x]
      simp only [Nat.zero_add]

/-- Witness for C6 at concrete inputs: adding the deletion flag over the
sequence-number set {1} on the listing [eB, eA] flags identifier 2 (the
record at position 1), and a request without the deletion flag is a no-op. -/
theorem updateFlags_only_deleted_witness :
    2 ∈ Mailbox.updateMessagesFlags true (fun n => n == 1) FlagsOp.add
        [DeletedFlag] [eB, eA] [] ∧
      Mailbox.updateMessagesFlags true (fun n => n == 1) FlagsOp.add
        [SeenFlag] [eB, eA] [7] = [7] :=
  ⟨(((updateFlags_only_deleted true (fun n => n == 1) FlagsOp.add [DeletedFlag]
        [eB, eA] []).2 (by decide) 2).1 (Or.inl rfl)).mpr
      (Or.inr ⟨0, by decide, by decide, by decide⟩),
    (updateFlags_only_deleted true (fun n => n == 1) FlagsOp.add [SeenFlag]
        [eB, eA] [7]).1 (by decide)⟩

/-- The pairing of each email of the listing with its 1-based sequence
number, exactly as the loop of ListMessages assigns positions. -/
def seqPairs : Nat → List Email → List (Nat × Email)
  | _, [] => []
  | i, e :: rest => (i + 1, e) :: seqPairs (i + 1) rest

theorem listMessagesAux_uid_item (ss : Nat → Bool) (d : List Nat) :
    ∀ (l : List Email) (i : Nat),
      Mailbox.listMessagesAux ss [FetchItem.uid] d i l
        = some (((seqPairs i l).filter (fun p => ss p.1)).map
            (fun p => { newMessage p.1 with uid := some p.2.id })) := by
  intro l
  induction l with
  | nil => intro i; rfl
  | cons e rest ih =>
      intro i
      rw [show Mailbox.listMessagesAux ss [FetchItem.uid] d i (e :: rest)
            = if ss (i + 1) then
                match Mailbox.fetchMessage d [FetchItem.uid] (i + 1) e with
                | none => none
                | some m =>
                    (Mailbox.listMessagesAux ss [FetchItem.uid] d (i + 1) rest).map
                      (m :: ·)
              else Mailbox.listMessagesAux ss [FetchItem.uid] d (i + 1) rest
          from rfl]
      have hf : Mailbox.fetchMessage d [FetchItem.uid] (i + 1) e
          = some { newMessage (i + 1) with uid := some e.id } := rfl
      rw [show seqPairs i (e :: rest) = (i + 1, e) :: seqPairs (i + 1) rest from rfl]
      by_cases hss : ss (i + 1) = true
      · rw [if_pos hss, hf, ih (i + 1),
          List.filter_cons_of_pos (by simpa using hss)]
        rfl
      · rw [if_neg hss, ih (i + 1),
          List.filter_cons_of_neg (by simpa using hss)]

/-- C10: ListMessages and UpdateMessagesFlags never read the caller's uid
addressing choice — their results are those of sequence-number addressing,
with the requested set matched against 1-based positions — while
SearchMessages honors the choice, and only for its output. -/
theorem uid_mode_ignored (uid : Bool) (ss : Nat → Bool) (items : List FetchItem)
    (d : List Nat) (emails : List Email) (op : FlagsOp) (flags : List String)
    (c : Mailbox.SearchCriteria) :
    Mailbox.listMessages uid ss items d emails
        = Mailbox.listMessages false ss items d emails ∧
      Mailbox.updateMessagesFlags uid ss op flags emails d
        = Mailbox.updateMessagesFlags false ss op flags emails d ∧
      Mailbox.listMessages uid ss [FetchItem.uid] d emails
        = some (((seqPairs 0 emails).filter (fun p => ss p.1)).map
            (fun p => { newMessage p.1 with uid := some p.2.id })) ∧
      Mailbox.searchMessages true c emails = emails.map Email.id ∧
      Mailbox.searchMessages false c emails = List.range' 1 emails.length :=
  ⟨rfl, rfl, listMessagesAux_uid_item ss d emails 0,
    searchMessagesAux_uid emails 0, searchMessagesAux_seq emails 0⟩

/-- C1: ListMessages does not sort by identifier — under the legal GetAll
iteration order [eB, eA] of the store s12, the full-range listing emits
identifier 2 at sequence number 1 and identifier 1 at sequence number 2,
so the emitted identifiers [2, 1] are not in ascending order. -/
theorem listMessages_not_sorted_by_id :
    GetAllResult s12 [eB, eA] ∧
      Mailbox.listMessages false (fun _ => true) [FetchItem.uid] [] [eB, eA]
        = some [{ newMessage 1 with uid := some 2 },
            { newMessage 2 with uid := some 1 }] ∧
      ¬ List.Sorted (· ≤ ·) [(2 : Nat), 1] := by
  refine ⟨by unfold GetAllResult; decide, by decide, by decide⟩

/-- C2: Status computes UIDNEXT as message count + 1, not as the Store's
next-identifier counter: in the store s2 (two Saves, then identifier 1
deleted) the status over the listing [eB] reports messages = 1 and
uidNext = 2, yet the Store's counter is 3 and the next Save returns
identifier 3; recent and unseen are reported as 0. -/
theorem status_uidNext_not_counter :
    GetAllResult s2 [eB] ∧
      Mailbox.status [eB] [StatusItem.messages, StatusItem.uidNext,
          StatusItem.recent, StatusItem.unseen]
        = { messages := 1, uidNext := 2, recent := 0, unseen := 0,
            uidValidity := 0, unseenSeqNum := 0,
            flags := [SeenFlag, DeletedFlag],
            permanentFlags := [SeenFlag, DeletedFlag] } ∧
      s2.nextID = 3 ∧ (s2.save eC).2 = 3 ∧ (2 : Nat) ≠ 3 := by
  refine ⟨by unfold GetAllResult; decide, by decide, by decide, by decide, by decide⟩

/-- C9: a BODY fetch synthesizes the To header from the first recipient
unconditionally: it fails (the Go code panics on `email.To[0]`) exactly on
an empty recipient list, and its output never depends on any recipient
beyond the first. -/
theorem buildBody_first_recipient (e : Email) (sec : BodySpecifier)
    (d : List Nat) (seq : Nat) :
    (e.«to» = [] →
        Mailbox.buildBody e sec = none ∧
          Mailbox.fetchMessage d [FetchItem.bodySection sec] seq e = none) ∧
      (e.«to» ≠ [] → ∃ c, Mailbox.buildBody e sec = some c) ∧
      (∀ t r r', Mailbox.buildBody { e with «to» := t :: r } sec
          = Mailbox.buildBody { e with «to» := t :: r' } sec) := by
  refine ⟨?_, ?_, ?_⟩
  · intro h
    constructor
    · simp [Mailbox.buildBody, h]
    · unfold Mailbox.fetchMessage
      simp [List.foldlM, Mailbox.applyItem, Mailbox.buildBody, h]
  · intro h
    cases hto : e.«to» with
    | nil => exact absurd hto h
    | cons t rest =>
        unfold Mailbox.buildBody
        rw [hto]
        cases sec <;> exact ⟨_, rfl⟩
  · intro t r r'
    cases sec <;> rfl

/-- Witness for C9 at concrete emails: the fetch fails on eNoRcpt (no
recipients), succeeds on eA (one recipient), and ignores every recipient
after the first. -/
theorem buildBody_first_recipient_witness :
    Mailbox.buildBody eNoRcpt BodySpecifier.header = none ∧
      Mailbox.fetchMessage [] [FetchItem.bodySection BodySpecifier.entire] 1 eNoRcpt
        = none ∧
      (∃ c, Mailbox.buildBody eA BodySpecifier.header = some c) ∧
      Mailbox.buildBody { eA with «to» := ["x", "y"] } BodySpecifier.entire
        = Mailbox.buildBody { eA with «to» := ["x", "z"] } BodySpecifier.entire :=
  ⟨((buildBody_first_recipient eNoRcpt BodySpecifier.header [] 1).1 rfl).1,
    ((buildBody_first_recipient eNoRcpt BodySpecifier.entire [] 1).1 rfl).2,
    (buildBody_first_recipient eA BodySpecifier.header [] 1).2.1 (by decide),
    (buildBody_first_recipient eA BodySpecifier.entire [] 1).2.2 "x" ["y"] ["z"]⟩

end Mailer
